import Mathlib

/-
Verification of the jitter-solver cost-function core
(asp/Camera/JitterSolveCostFuns.cc and its header JitterSolveCostFuns.h).

The C++ code is shallowly embedded: doubles become exact rationals,
C int values become ℤ or ℕ, external library calls (matrix inverse,
Euler-angle extraction, ground-to-image projection, square root,
median) become explicit function parameters or inputs, and functions
that can throw become Option-valued.
-/

/-! ## Constants from JitterSolveCostFuns.h -/

/-- Size of a quaternion parameter block (x, y, z, w). -/
def NUM_QUAT_PARAMS : ℕ := 4

/-- Size of a position / triangulated-point parameter block. -/
def NUM_XYZ_PARAMS : ℕ := 3

/-- Number of residual components of a pixel reprojection error. -/
def PIXEL_SIZE : ℕ := 2

/-- The large pixel value used when a projection throws
(g_big_pixel_value in JitterSolveCostFuns.h). -/
def g_big_pixel_value : ℚ := 1000

/-! ## Index-range calculator (calcIndexBounds) -/

/-- C-style cast of a double to int: truncation toward zero.
For q ≥ 0 this is the floor, for q < 0 it is the negated floor of -q
(i.e. the ceiling). -/
def truncInt (q : ℚ) : ℤ := if 0 ≤ q then ⌊q⌋ else -⌊-q⌋

/-- Embedding of calcIndexBounds from JitterSolveCostFuns.cc.
Computes index1 and index2 by the C cast static_cast of
(time - t0) / dt, widens by half the Lagrange interpolation order
(numInterpSamples = 8), clamps to [0, numVals], and throws
(returns none) when the clamped range is empty. -/
def calcIndexBounds (time1 time2 t0 dt : ℚ) (numVals : ℤ) : Option (ℤ × ℤ) :=
  let numInterpSamples : ℤ := 8
  let index1 : ℤ := truncInt ((time1 - t0) / dt)
  let index2 : ℤ := truncInt ((time2 - t0) / dt)
  let begIndex0 : ℤ := min index1 index2 - numInterpSamples / 2 + 1
  let endIndex0 : ℤ := max index1 index2 + numInterpSamples / 2 + 1
  let begIndex : ℤ := max 0 begIndex0
  let endIndex : ℤ := min endIndex0 numVals
  if endIndex ≤ begIndex then none else some (begIndex, endIndex)

/-- The index-bound formula exactly as the specification claim words it,
with i1 and i2 given by the mathematical floor of (time - t0) / dt.
Used only to compare the claim against the code. -/
def calcIndexBoundsFloorSpec (time1 time2 t0 dt : ℚ) (numVals : ℤ) : Option (ℤ × ℤ) :=
  let K : ℤ := 8
  let i1 : ℤ := ⌊(time1 - t0) / dt⌋
  let i2 : ℤ := ⌊(time2 - t0) / dt⌋
  let begIndex : ℤ := max 0 (min i1 i2 - K / 2 + 1)
  let endIndex : ℤ := min numVals (max i1 i2 + K / 2 + 1)
  if endIndex ≤ begIndex then none else some (begIndex, endIndex)

/-! ## Pixel reprojection residuals (LsPixelReprojErr, FramePixelReprojErr)

The external CSM call cam.groundToImage together with the model update
is summarized by its outcome: some pix on success, none when the call
throws. The embedding returns the two residual components and the
boolean value returned to the solver. -/

/-- Embedding of LsPixelReprojErr::operator(). On success the residual
is weight * (pix - observation) componentwise; when projection throws,
both residual components are set to g_big_pixel_value and true is
returned so the solver continues. -/
def lsPixelReprojErrResiduals (weight : ℚ) (observation : ℚ × ℚ)
    (projection : Option (ℚ × ℚ)) : (ℚ × ℚ) × Bool :=
  match projection with
  | some pix =>
      ((weight * (pix.1 - observation.1), weight * (pix.2 - observation.2)), true)
  | none => ((g_big_pixel_value, g_big_pixel_value), true)

/-- Embedding of FramePixelReprojErr::operator(); the success and
failure paths have the same residual form as the linescan case. -/
def framePixelReprojErrResiduals (weight : ℚ) (observation : ℚ × ℚ)
    (projection : Option (ℚ × ℚ)) : (ℚ × ℚ) × Bool :=
  match projection with
  | some pix =>
      ((weight * (pix.1 - observation.1), weight * (pix.2 - observation.2)), true)
  | none => ((g_big_pixel_value, g_big_pixel_value), true)

/-! ## Soft-constraint cost functions -/

/-- Embedding of weightedXyzError::operator(): residual p =
weight * (point p - observation p) for the three components. -/
def weightedXyzError (observation : Fin 3 → ℚ) (weight : ℚ)
    (point : Fin 3 → ℚ) : Fin 3 → ℚ :=
  fun p => weight * (point p - observation p)

/-- Embedding of weightedRotationError::operator(): residual p =
weight * (quat p - init_quat p) for the four components. -/
def weightedRotationError (init_quat : Fin 4 → ℚ) (weight : ℚ)
    (quat : Fin 4 → ℚ) : Fin 4 → ℚ :=
  fun p => weight * (quat p - init_quat p)

/-- Embedding of weightedTranslationError::operator(): residual p =
weight * (position p - init_position p) for the three components. -/
def weightedTranslationError (init_position : Fin 3 → ℚ) (weight : ℚ)
    (position : Fin 3 → ℚ) : Fin 3 → ℚ :=
  fun p => weight * (position p - init_position p)

/-- Embedding of weightedQuatNormError::operator(): the scalar residual
accumulates quat p * quat p over the four components and returns
weight * (sum - 1). -/
def weightedQuatNormError (weight : ℚ) (quat : Fin 4 → ℚ) : ℚ :=
  weight * ((∑ p : Fin 4, quat p * quat p) - 1)

/-! ## Roll / yaw cost function (weightedRollYawError) -/

/-- A 3x3 rational matrix, standing for vw::Matrix3x3. -/
abbrev Mat3 := Matrix (Fin 3) (Fin 3) ℚ

/-- C round(): nearest integer, halves away from zero. -/
def roundC (q : ℚ) : ℤ := if 0 ≤ q then ⌊q + 1/2⌋ else ⌈q - 1/2⌉

/-- The angle normalization applied in weightedRollYawError::operator():
x - 180.0 * round(x / 180.0). -/
def normalizeAngle (x : ℚ) : ℚ := x - 180 * roundC (x / 180)

/-- Embedding of weightedRollYawError::operator(). The external calls
vw::math::inverse and rollPitchYawFromRotationMatrix are passed in as
function parameters matInv and rpyFrom (rpyFrom returns the Euler
angles (roll, pitch, yaw) of a rotation matrix, in degrees). -/
def weightedRollYawErrorOp (matInv : Mat3 → Mat3)
    (rpyFrom : Mat3 → ℚ × ℚ × ℚ)
    (rollWeight yawWeight : ℚ) (sat2World rotXY initCam2World : Mat3)
    (initial_camera_constraint : Bool) (cam2world : Mat3) : ℚ × ℚ :=
  if initial_camera_constraint then
    let cam2cam := matInv cam2world * initCam2World
    let rpy := rpyFrom cam2cam
    let roll := normalizeAngle rpy.1
    let pitch := normalizeAngle rpy.2.1
    let yaw := normalizeAngle rpy.2.2
    (pitch * rollWeight, yaw * yawWeight)
  else
    let rollPitchYaw := matInv sat2World * cam2world * matInv rotXY
    let rpy := rpyFrom rollPitchYaw
    let roll := normalizeAngle rpy.1
    let pitch := normalizeAngle rpy.2.1
    let yaw := normalizeAngle rpy.2.2
    (roll * rollWeight, yaw * yawWeight)

/-- Value of the C++ expression a || b on two doubles: both operands are
converted to bool, so the result, converted back to double when stored
into a vector of doubles, is 1.0 whenever either operand is nonzero and
0.0 otherwise. -/
def cppOrDouble (a b : ℚ) : ℚ := if a ≠ 0 ∨ b ≠ 0 then 1 else 0

/-- The pair of weights appended to weight_per_residual by
addRollYawConstraint for one residual block: roll_weight || 1.0 and
yaw_weight || 1.0. -/
def rollYawRecordedWeightPair (roll_weight yaw_weight : ℚ) : ℚ × ℚ :=
  (cppOrDouble roll_weight 1, cppOrDouble yaw_weight 1)

/-! ## Triangulation-inertia and DEM constraints -/

/-- Type of a control-network point (vw::ba::ControlPoint::type()). -/
inductive ControlPointType
  | tiePoint
  | groundControlPoint
  | pointFromDem
deriving DecidableEq

/-- The data of one triangulated point as seen by addTriConstraint:
its control-network type, outlier flag, estimated GSD, and current
(initial) coordinates in tri_points_vec. -/
structure TriPointInput where
  ptType : ControlPointType
  isOutlier : Bool
  gsd : ℚ
  triPoint : Fin 3 → ℚ

/-- One residual block added against a triangulated point: the scalar
weight passed to weightedXyzError, the observation it is compared to,
the Cauchy loss threshold, and the values appended to
weight_per_residual for its three components. -/
structure TriBlock where
  weight : ℚ
  observation : Fin 3 → ℚ
  lossThreshold : ℚ
  recordedWeights : List ℚ

/-- Loop body of addTriConstraint for one point: GCPs and
height-from-dem points are skipped, outliers are skipped, points with
nonpositive GSD are skipped; otherwise a weightedXyzError block with
weight tri_weight / gsd, observation the current point value and a
Cauchy loss at tri_robust_threshold is added, while the value
opt.tri_weight is appended to weight_per_residual three times. -/
def triPointBlock (tri_weight tri_robust_threshold : ℚ)
    (pt : TriPointInput) : Option TriBlock :=
  if pt.ptType = ControlPointType.groundControlPoint
      ∨ pt.ptType = ControlPointType.pointFromDem then none
  else if pt.isOutlier then none
  else if pt.gsd ≤ 0 then none
  else some
    { weight := tri_weight / pt.gsd
      observation := pt.triPoint
      lossThreshold := tri_robust_threshold
      recordedWeights := List.replicate NUM_XYZ_PARAMS tri_weight }

/-- Embedding of the addTriConstraint loop over all control-network
points. -/
def addTriConstraintBlocks (tri_weight tri_robust_threshold : ℚ)
    (pts : List TriPointInput) : List TriBlock :=
  pts.filterMap (triPointBlock tri_weight tri_robust_threshold)

/-- The data of one point as seen by addDemConstraint: outlier flag and
the xyz computed from the DEM ((0,0,0) meaning the point missed the
DEM). -/
structure DemPointInput where
  isOutlier : Bool
  demXyz : Fin 3 → ℚ

/-- Loop body of addDemConstraint for one point (after the whole-input
validation has passed, with xyz_weight = 1 / heights_from_dem_uncertainty
and xyz_threshold = heights_from_dem_robust_threshold): outliers and
points with zero DEM xyz are skipped; otherwise a weightedXyzError
block with weight xyz_weight is added and xyz_weight is appended to
weight_per_residual three times. -/
def demPointBlock (xyz_weight xyz_threshold : ℚ)
    (pt : DemPointInput) : Option TriBlock :=
  if pt.isOutlier ∨ (∀ p, pt.demXyz p = 0) then none
  else some
    { weight := xyz_weight
      observation := pt.demXyz
      lossThreshold := xyz_threshold
      recordedWeights := List.replicate NUM_XYZ_PARAMS xyz_weight }

/-! ## Reprojection pass structure (addReprojCamErrs) -/

/-- One observation of one camera as consumed by addReprojCamErrs:
the index of its triangulated point in tri_points_vec, its pixel
weight, and its anchor flag. -/
structure ReprojObs where
  triIndex : ℕ
  pixWt : ℚ
  isAnchor : Bool

/-- The observations processed by one pass of addReprojCamErrs: pass 0
keeps non-anchor observations, pass 1 keeps anchor observations
(the loop is continue when (int)isAnchor != pass). -/
def reprojObsPass (pass : ℕ) (obsList : List ReprojObs) : List ReprojObs :=
  obsList.filter (fun o => (if o.isAnchor then 1 else 0) = pass)

/-- The processing order of addReprojCamErrs: all of pass 0, then all
of pass 1. -/
def reprojObsOrder (obsList : List ReprojObs) : List ReprojObs :=
  reprojObsPass 0 obsList ++ reprojObsPass 1 obsList

/-- The triangulated-point indices on which addReprojCamErrs calls
SetParameterBlockConstant: those of anchor observations. -/
def constantTriIndices (obsList : List ReprojObs) : List ℕ :=
  ((reprojObsOrder obsList).filter (fun o => o.isAnchor)).map
    (fun o => o.triIndex)

/-- Modelled from the spec: the Ceres solve step, which is external to
this repository. Parameter blocks marked constant keep their input
values (spec: anchor points do not move), while every free block may
be assigned an arbitrary new value, represented by the update
function. -/
def solvedTriPoints (constIdx : List ℕ) (update : ℕ → Fin 3 → ℚ)
    (before : ℕ → Fin 3 → ℚ) : ℕ → Fin 3 → ℚ :=
  fun i => if i ∈ constIdx then before i else update i

/-- The two entries appended to weight_per_residual for one
reprojection residual block (PIXEL_SIZE copies of the observation's
pixel weight, which is also the m_weight multiplied inside the cost
function). -/
def reprojRecordedWeights (pix_wt : ℚ) : List ℚ :=
  List.replicate PIXEL_SIZE pix_wt

/-- The camera-position weight contributed by one observation to
this_cam_weights in addReprojCamErrs: none when estimatedGSD throws or
returns a nonpositive value (the observation is skipped), otherwise
camera_position_weight * pix_wt / gsd. -/
def camPositionObsWt (camera_position_weight pix_wt : ℚ)
    (gsdResult : Option ℚ) : Option ℚ :=
  match gsdResult with
  | none => none
  | some gsd => if gsd ≤ 0 then none
                else some (camera_position_weight * pix_wt / gsd)

/-- The this_cam_weights list accumulated by addReprojCamErrs for one
camera and one pass: each observation contributes through
camPositionObsWt. Its length is the count and its median the weight
recorded for the camera-position constraint. -/
def thisCamWeights (camera_position_weight : ℚ)
    (obsPix : List (ℚ × Option ℚ)) : List ℚ :=
  obsPix.filterMap (fun o => camPositionObsWt camera_position_weight o.1 o.2)

/-! ## Camera-position, rotation and quaternion-norm constraints -/

/-- The shape of a CSM camera as far as parameter counting goes: a
linescan model with numPos position samples and numQuat quaternion
samples, or a frame model with a single position and quaternion. -/
inductive CamShape
  | linescan (numPos numQuat : ℕ)
  | frame
deriving DecidableEq

/-- One weightedTranslationError residual block added by
addCamPositionConstraint: the position sample index it constrains, the
weight multiplied inside the cost function, the Cauchy loss threshold,
and the values appended to weight_per_residual. -/
structure TransBlock where
  posIndex : ℕ
  weight : ℚ
  lossThreshold : ℚ
  recordedWeights : List ℚ
deriving DecidableEq

/-- Embedding of the per-camera body of addCamPositionConstraint.
sqrtFn stands for the C sqrt applied to the (integral) count and
numPos values; median_wt and count are the median weight and count
recorded by addReprojCamErrs for this camera and pass. Cameras with
count 0 are skipped. For a linescan camera the combined weight and
threshold are both divided by sqrtFn numPos and one block is added per
position sample; for a frame camera a single block is added. -/
def addCamPositionConstraintCam (sqrtFn : ℕ → ℚ)
    (camera_position_robust_threshold median_wt : ℚ) (count : ℕ)
    (shape : CamShape) : List TransBlock :=
  if count = 0 then []
  else
    let combined_wt := sqrtFn count * median_wt
    let combined_th := sqrtFn count * camera_position_robust_threshold
    match shape with
    | CamShape.linescan numPos _ =>
        (List.range numPos).map (fun ip =>
          { posIndex := ip
            weight := combined_wt / sqrtFn numPos
            lossThreshold := combined_th / sqrtFn numPos
            recordedWeights :=
              List.replicate NUM_XYZ_PARAMS (combined_wt / sqrtFn numPos) })
    | CamShape.frame =>
        [{ posIndex := 0
           weight := combined_wt
           lossThreshold := combined_th
           recordedWeights := List.replicate NUM_XYZ_PARAMS combined_wt }]

/-- The natural-number square root lifted to ℚ; used only to
instantiate sqrtFn at perfect squares in concrete runs. -/
def natSqrtQ (n : ℕ) : ℚ := (Nat.sqrt n : ℚ)

/-- The weights appended to weight_per_residual by the rotation part of
addQuatNormRotationConstraints for one camera: NUM_QUAT_PARAMS copies
of rotation_weight per linescan quaternion sample, or one group of
NUM_QUAT_PARAMS copies for a frame camera. The same rotation_weight is
the multiplier inside weightedRotationError. -/
def rotationRecordedWeightsCam (rotation_weight : ℚ)
    (shape : CamShape) : List ℚ :=
  match shape with
  | CamShape.linescan _ numQuat =>
      (List.range numQuat).flatMap
        (fun _ => List.replicate NUM_QUAT_PARAMS rotation_weight)
  | CamShape.frame => List.replicate NUM_QUAT_PARAMS rotation_weight

/-- One weightedQuatNormError residual block added by
addQuatNormRotationConstraints: which camera and quaternion sample it
constrains, the weight, whether a loss function is attached (the code
passes NULL), and the single value appended to weight_per_residual. -/
structure QuatNormBlock where
  camIndex : ℕ
  quatIndex : ℕ
  weight : ℚ
  hasLoss : Bool
  recordedWeights : List ℚ
deriving DecidableEq

/-- The quaternion-norm blocks added for one camera: one per linescan
quaternion sample, or one for the single frame quaternion. -/
def quatNormBlocksCam (quat_norm_weight : ℚ) (icam : ℕ)
    (shape : CamShape) : List QuatNormBlock :=
  match shape with
  | CamShape.linescan _ numQuat =>
      (List.range numQuat).map (fun iq =>
        { camIndex := icam, quatIndex := iq, weight := quat_norm_weight
          hasLoss := false, recordedWeights := [quat_norm_weight] })
  | CamShape.frame =>
      [{ camIndex := icam, quatIndex := 0, weight := quat_norm_weight
         hasLoss := false, recordedWeights := [quat_norm_weight] }]

/-- The camera loop of the quaternion-norm part of
addQuatNormRotationConstraints, carrying the camera index. -/
def addQuatNormLoop (quat_norm_weight : ℚ) (icam : ℕ) :
    List CamShape → List QuatNormBlock
  | [] => []
  | shape :: rest =>
      quatNormBlocksCam quat_norm_weight icam shape ++
      addQuatNormLoop quat_norm_weight (icam + 1) rest

/-- Embedding of the quaternion-norm part of
addQuatNormRotationConstraints: guarded by quat_norm_weight > 0, then
one pass over the cameras. -/
def addQuatNormConstraints (quat_norm_weight : ℚ)
    (shapes : List CamShape) : List QuatNormBlock :=
  if 0 < quat_norm_weight then addQuatNormLoop quat_norm_weight 0 shapes
  else []

/-! ## Linescan model update (updateLsModelTriPt) and parameter layout -/

/-- The parameters array handed to a cost function by the solver: a
list of parameter blocks, each a list of doubles. -/
abbrev Params := List (List ℚ)

/-- Reading entry idx of parameter block blk, as parameters[blk][idx]
does in the C++ code. -/
def blockElem (parameters : Params) (blk idx : ℕ) : ℚ :=
  (parameters.getD blk []).getD idx 0

/-- The inner coordinate loop of updateLsModelTriPt: the first c
coordinates of parameter block blk are written into dst at offsets
width * idx + 0, ..., width * idx + c - 1. -/
def writeSlice (width : ℕ) (parameters : Params) (idx blk : ℕ)
    (dst : List ℚ) : ℕ → List ℚ
  | 0 => dst
  | c + 1 =>
      (writeSlice width parameters idx blk dst c).set
        (width * idx + c) (blockElem parameters blk c)

/-- The outer sample loop of updateLsModelTriPt: the first n samples
starting at begIdx are overwritten from parameter blocks blkOff,
blkOff + 1, ..., each write being a full width-wide slice. -/
def writeSlices (width : ℕ) (parameters : Params) (begIdx blkOff : ℕ)
    (dst : List ℚ) : ℕ → List ℚ
  | 0 => dst
  | n + 1 =>
      writeSlice width parameters (begIdx + n) (blkOff + n)
        (writeSlices width parameters begIdx blkOff dst n) width

/-- The mutable arrays of a UsgsAstroLsSensorModel that
updateLsModelTriPt writes: the flattened quaternion samples (4 doubles
each) and position samples (3 doubles each). -/
structure LsModelArrays where
  m_quaternions : List ℚ
  m_positions : List ℚ

/-- Embedding of updateLsModelTriPt: quaternion samples
[begQuatIndex, endQuatIndex) are overwritten from the leading
parameter blocks, position samples [begPosIndex, endPosIndex) from the
following blocks (param_shift = endQuatIndex - begQuatIndex), and the
triangulated point is read from the block after those
(param_shift = endQuatIndex - begQuatIndex + endPosIndex - begPosIndex). -/
def updateLsModelTriPt (parameters : Params)
    (begQuatIndex endQuatIndex begPosIndex endPosIndex : ℕ)
    (cam : LsModelArrays) : LsModelArrays × (ℚ × ℚ × ℚ) :=
  let quats := writeSlices NUM_QUAT_PARAMS parameters begQuatIndex 0
      cam.m_quaternions (endQuatIndex - begQuatIndex)
  let param_shift := endQuatIndex - begQuatIndex
  let poss := writeSlices NUM_XYZ_PARAMS parameters begPosIndex param_shift
      cam.m_positions (endPosIndex - begPosIndex)
  let param_shift2 := param_shift + (endPosIndex - begPosIndex)
  (⟨quats, poss⟩,
   (blockElem parameters param_shift2 0,
    blockElem parameters param_shift2 1,
    blockElem parameters param_shift2 2))

/-- The parameter-block sizes declared by LsPixelReprojErr::Create: one
block of NUM_QUAT_PARAMS per quaternion index in the range, then one
block of NUM_XYZ_PARAMS per position index in the range, then one
block of NUM_XYZ_PARAMS for the triangulated point. -/
def lsReprojBlockSizes
    (begQuatIndex endQuatIndex begPosIndex endPosIndex : ℕ) : List ℕ :=
  List.replicate (endQuatIndex - begQuatIndex) NUM_QUAT_PARAMS ++
  List.replicate (endPosIndex - begPosIndex) NUM_XYZ_PARAMS ++
  [NUM_XYZ_PARAMS]

/-! ## Theorems for the index-range calculator -/

/-- C1 (counterexample): at time1 = time2 = -1/2, t0 = 0, dt = 1 > 0,
numVals = 10, the code returns (0, 5) because the C cast truncates
-1/2 to 0, while the claim's floor formula gives (0, 4): the claim
as stated is false. -/
theorem calcIndexBounds_floor_cex :
    calcIndexBounds (-1/2) (-1/2) 0 1 10 = some (0, 5) ∧
    calcIndexBoundsFloorSpec (-1/2) (-1/2) 0 1 10 = some (0, 4) := by
  constructor
  · show (if _ then _ else _) = _
    norm_num [truncInt]
  · show (if _ then _ else _) = _
    norm_num

/-- C1 (amended): for dt > 0, whenever calcIndexBounds returns
normally, its outputs equal the spec formula with K = 8 where i1, i2
are obtained by C-style truncation toward zero of (time - t0) / dt
(they agree with the mathematical floor when those ratios are
nonnegative). -/
theorem calcIndexBounds_trunc_formula (time1 time2 t0 dt : ℚ) (numVals : ℤ)
    (hdt : 0 < dt) (b e : ℤ)
    (h : calcIndexBounds time1 time2 t0 dt numVals = some (b, e)) :
    b = max 0 (min (truncInt ((time1 - t0) / dt)) (truncInt ((time2 - t0) / dt)) - 8 / 2 + 1)
    ∧
    e = min numVals (max (truncInt ((time1 - t0) / dt)) (truncInt ((time2 - t0) / dt)) + 8 / 2 + 1) := by
  simp only [calcIndexBounds] at h
  split at h
  · exact absurd h (by simp)
  · rw [Option.some_inj, Prod.mk.injEq] at h
    obtain ⟨hb, he⟩ := h
    exact ⟨hb.symm, by rw [← he, min_comm]⟩

/-- C1 witness: concrete run of the amended theorem at
time1 = time2 = 0, t0 = 0, dt = 1, numVals = 10, where the result is
(0, 5). -/
theorem calcIndexBounds_trunc_formula_wit :
    0 < (1 : ℚ) ∧
    (0 : ℤ) = max 0 (min (truncInt ((0 - 0) / 1)) (truncInt ((0 - 0) / 1)) - 8 / 2 + 1) ∧
    (5 : ℤ) = min 10 (max (truncInt ((0 - 0) / 1)) (truncInt ((0 - 0) / 1)) + 8 / 2 + 1) := by
  refine ⟨by norm_num, ?_⟩
  have hsome : calcIndexBounds 0 0 0 1 10 = some (0, 5) := by
    show (if _ then _ else _) = _
    norm_num [truncInt]
  exact calcIndexBounds_trunc_formula 0 0 0 1 10 (by norm_num) 0 5 hsome

/-- C8: with dt > 0, calcIndexBounds fails (returns none) exactly when
the clamped range is empty, and on every normal return it guarantees
0 ≤ begIndex < endIndex ≤ numVals. -/
theorem calcIndexBounds_fail_iff_bounds (time1 time2 t0 dt : ℚ) (numVals : ℤ)
    (hdt : 0 < dt) :
    (calcIndexBounds time1 time2 t0 dt numVals = none ↔
      min (max (truncInt ((time1 - t0) / dt)) (truncInt ((time2 - t0) / dt)) + 8 / 2 + 1) numVals
      ≤ max 0 (min (truncInt ((time1 - t0) / dt)) (truncInt ((time2 - t0) / dt)) - 8 / 2 + 1))
    ∧
    ∀ b e : ℤ, calcIndexBounds time1 time2 t0 dt numVals = some (b, e) →
      0 ≤ b ∧ b < e ∧ e ≤ numVals := by
  constructor
  · simp only [calcIndexBounds]
    split
    · next hcond => exact iff_of_true rfl hcond
    · next hcond => exact iff_of_false (by simp) hcond
  · intro b e h
    simp only [calcIndexBounds] at h
    split at h
    · exact absurd h (by simp)
    · next hcond =>
      rw [Option.some_inj, Prod.mk.injEq] at h
      obtain ⟨hb, he⟩ := h
      refine ⟨hb ▸ le_max_left 0 _, ?_, ?_⟩
      · rw [← hb, ← he]; exact lt_of_not_ge hcond
      · rw [← he]; exact min_le_right _ _

/-- C8 witness: concrete run at time1 = time2 = 0, t0 = 0, dt = 1,
numVals = 10, which returns (0, 5), giving 0 ≤ 0 < 5 ≤ 10. -/
theorem calcIndexBounds_fail_iff_bounds_wit :
    0 < (1 : ℚ) ∧ (0 ≤ (0 : ℤ) ∧ (0 : ℤ) < 5 ∧ (5 : ℤ) ≤ 10) := by
  refine ⟨by norm_num, ?_⟩
  have hsome : calcIndexBounds 0 0 0 1 10 = some (0, 5) := by
    show (if _ then _ else _) = _
    norm_num [truncInt]
  exact (calcIndexBounds_fail_iff_bounds 0 0 0 1 10 (by norm_num)).2 0 5 hsome

/-! ## Theorems for the reprojection residuals -/

/-- C2 (counterexample): with weight 2, on projection failure both the
linescan and the frame residual components are 1000, not
weight * 1000 = 2000, so the claim as stated is false. -/
theorem reprojFailure_weight_cex :
    (lsPixelReprojErrResiduals 2 (0, 0) none).1 = (1000, 1000) ∧
    (framePixelReprojErrResiduals 2 (0, 0) none).1 = (1000, 1000) ∧
    (1000 : ℚ) ≠ 2 * 1000 :=
  ⟨rfl, rfl, by norm_num⟩

/-- C2 (amended): in both the linescan and the frame reprojection
residuals, when projection fails both residual components are set to
the fixed value g_big_pixel_value = 1000 (the observation's weight is
not applied to them), and the evaluation still returns true so the
solver continues; on success the residual is
weight * (projected - observed) and true is returned as well. -/
theorem reprojFailure_big_pixel (weight : ℚ) (observation pix : ℚ × ℚ) :
    lsPixelReprojErrResiduals weight observation none
      = ((g_big_pixel_value, g_big_pixel_value), true) ∧
    framePixelReprojErrResiduals weight observation none
      = ((g_big_pixel_value, g_big_pixel_value), true) ∧
    g_big_pixel_value = 1000 ∧
    lsPixelReprojErrResiduals weight observation (some pix)
      = ((weight * (pix.1 - observation.1),
          weight * (pix.2 - observation.2)), true) ∧
    framePixelReprojErrResiduals weight observation (some pix)
      = ((weight * (pix.1 - observation.1),
          weight * (pix.2 - observation.2)), true) :=
  ⟨rfl, rfl, rfl, rfl, rfl⟩

/-! ## Theorems for the roll / yaw cost function -/

/-- The distance from q to roundC q is at most one half. -/
theorem sub_roundC_bounds (q : ℚ) :
    -(1/2) ≤ q - (roundC q : ℚ) ∧ q - (roundC q : ℚ) ≤ 1/2 := by
  unfold roundC
  split
  · constructor
    · have h := Int.floor_le (q + 1/2)
      linarith
    · have h := Int.lt_floor_add_one (q + 1/2)
      linarith
  · constructor
    · have h := Int.ceil_lt_add_one (q - 1/2)
      linarith
    · have h := Int.le_ceil (q - 1/2)
      linarith

/-- The normalized angle lies in (-180, 180] (in fact in [-90, 90]). -/
theorem normalizeAngle_mem (x : ℚ) :
    -180 < normalizeAngle x ∧ normalizeAngle x ≤ 180 := by
  obtain ⟨h1, h2⟩ := sub_roundC_bounds (x / 180)
  unfold normalizeAngle
  have hx : x = 180 * (x / 180) := by ring
  constructor <;> nlinarith

/-- C7: the roll/yaw residual extracts Euler angles from the
rollPitchYaw factor (computed as inverse sat2World * cam2world *
inverse rotXY), normalizes each angle with x - 180 * round(x / 180),
landing in (-180, 180], and returns
(roll * roll_weight, yaw * yaw_weight); in the alternate
initial-camera-constraint mode the angles come from
inverse cam2world * initCam2World and the first component is instead
pitch * roll_weight, because roll and pitch roles swap in that mode. -/
theorem weightedRollYawError_c7 (matInv : Mat3 → Mat3)
    (rpyFrom : Mat3 → ℚ × ℚ × ℚ) (rollWeight yawWeight : ℚ)
    (sat2World rotXY initCam2World cam2world : Mat3) :
    (weightedRollYawErrorOp matInv rpyFrom rollWeight yawWeight
        sat2World rotXY initCam2World false cam2world
      = (normalizeAngle
            (rpyFrom (matInv sat2World * cam2world * matInv rotXY)).1
            * rollWeight,
         normalizeAngle
            (rpyFrom (matInv sat2World * cam2world * matInv rotXY)).2.2
            * yawWeight))
    ∧
    (weightedRollYawErrorOp matInv rpyFrom rollWeight yawWeight
        sat2World rotXY initCam2World true cam2world
      = (normalizeAngle (rpyFrom (matInv cam2world * initCam2World)).2.1
            * rollWeight,
         normalizeAngle (rpyFrom (matInv cam2world * initCam2World)).2.2
            * yawWeight))
    ∧
    (∀ x : ℚ, -180 < normalizeAngle x ∧ normalizeAngle x ≤ 180) :=
  ⟨rfl, rfl, normalizeAngle_mem⟩

/-! ## Theorems for the quaternion-norm constraint -/

/-- Every block produced by the camera loop has the given weight, no
loss function, and records exactly the weight once. -/
theorem addQuatNormLoop_fields (w : ℚ) (icam : ℕ) (shapes : List CamShape) :
    ∀ b ∈ addQuatNormLoop w icam shapes,
      b.weight = w ∧ b.hasLoss = false ∧ b.recordedWeights = [w] := by
  induction shapes generalizing icam with
  | nil => intro b hb; simp [addQuatNormLoop] at hb
  | cons s rest ih =>
    intro b hb
    simp only [addQuatNormLoop, List.mem_append] at hb
    rcases hb with hb | hb
    · cases s with
      | linescan numPos numQuat =>
        simp only [quatNormBlocksCam, List.mem_map] at hb
        obtain ⟨iq, _, rfl⟩ := hb
        exact ⟨rfl, rfl, rfl⟩
      | frame =>
        simp only [quatNormBlocksCam, List.mem_singleton] at hb
        subst hb
        exact ⟨rfl, rfl, rfl⟩
    · exact ih (icam + 1) b hb

/-- If camera i has the given shape, all of that camera's per-sample
blocks are in the loop output (with camera index icam + i). -/
theorem mem_addQuatNormLoop (w : ℚ) (shapes : List CamShape) (icam i : ℕ)
    (shape : CamShape) (hi : shapes[i]? = some shape) (b : QuatNormBlock)
    (hb : b ∈ quatNormBlocksCam w (icam + i) shape) :
    b ∈ addQuatNormLoop w icam shapes := by
  induction shapes generalizing icam i with
  | nil => simp at hi
  | cons s rest ih =>
    simp only [addQuatNormLoop, List.mem_append]
    cases i with
    | zero =>
      simp only [List.getElem?_cons_zero, Option.some_inj] at hi
      subst hi
      exact Or.inl hb
    | succ n =>
      simp only [List.getElem?_cons_succ] at hi
      refine Or.inr (ih (icam + 1) n hi ?_)
      have harith : icam + 1 + n = icam + (n + 1) := by omega
      rw [harith]
      exact hb

/-- C9: when quat_norm_weight > 0, every quaternion-norm block carries
weight quat_norm_weight with no loss attached and records that weight
once; one block is present for every quaternion sample of every
linescan camera and for the single quaternion of every frame camera;
and the scalar residual is quat_norm_weight * (|q|^2 - 1). -/
theorem quatNorm_c9 (w : ℚ) (shapes : List CamShape) (hw : 0 < w) :
    (∀ b ∈ addQuatNormConstraints w shapes,
        b.weight = w ∧ b.hasLoss = false ∧ b.recordedWeights = [w])
    ∧ (∀ i numPos numQuat,
        shapes[i]? = some (CamShape.linescan numPos numQuat) →
        ∀ iq < numQuat,
          (⟨i, iq, w, false, [w]⟩ : QuatNormBlock)
            ∈ addQuatNormConstraints w shapes)
    ∧ (∀ i, shapes[i]? = some CamShape.frame →
        (⟨i, 0, w, false, [w]⟩ : QuatNormBlock)
          ∈ addQuatNormConstraints w shapes)
    ∧ (∀ q : Fin 4 → ℚ,
        weightedQuatNormError w q = w * ((∑ p : Fin 4, (q p) ^ 2) - 1)) := by
  refine ⟨?_, ?_, ?_, ?_⟩
  · intro b hb
    rw [addQuatNormConstraints, if_pos hw] at hb
    exact addQuatNormLoop_fields w 0 shapes b hb
  · intro i numPos numQuat hi iq hiq
    rw [addQuatNormConstraints, if_pos hw]
    refine mem_addQuatNormLoop w shapes 0 i _ hi _ ?_
    simp only [quatNormBlocksCam, List.mem_map]
    exact ⟨iq, List.mem_range.mpr hiq, by simp⟩
  · intro i hi
    rw [addQuatNormConstraints, if_pos hw]
    refine mem_addQuatNormLoop w shapes 0 i _ hi _ ?_
    simp [quatNormBlocksCam]
  · intro q
    simp [weightedQuatNormError, pow_two]

/-- C9 witness: with weight 1 and cameras [linescan with 2 quaternion
samples, frame], the block for quaternion sample 1 of camera 0 is
present. -/
theorem quatNorm_c9_wit :
    0 < (1 : ℚ) ∧
    (⟨0, 1, 1, false, [1]⟩ : QuatNormBlock)
      ∈ addQuatNormConstraints 1 [CamShape.linescan 3 2, CamShape.frame] :=
  ⟨by norm_num,
   (quatNorm_c9 1 [CamShape.linescan 3 2, CamShape.frame] (by norm_num)).2.1
     0 3 2 rfl 1 (by norm_num)⟩

/-! ## Theorems for the per-residual weight recording and constraints -/

/-- Closed form of the addTriConstraint loop body: a block is produced
exactly for non-GCP, non-DEM, non-outlier points with positive GSD. -/
theorem triPointBlock_eq_ite (tri_weight tri_robust_threshold : ℚ)
    (pt : TriPointInput) :
    triPointBlock tri_weight tri_robust_threshold pt
      = if pt.ptType ≠ ControlPointType.groundControlPoint
            ∧ pt.ptType ≠ ControlPointType.pointFromDem
            ∧ pt.isOutlier = false ∧ 0 < pt.gsd
        then some
          { weight := tri_weight / pt.gsd
            observation := pt.triPoint
            lossThreshold := tri_robust_threshold
            recordedWeights := List.replicate NUM_XYZ_PARAMS tri_weight }
        else none := by
  unfold triPointBlock
  by_cases h1 : pt.ptType = ControlPointType.groundControlPoint
      ∨ pt.ptType = ControlPointType.pointFromDem
  · rw [if_pos h1, if_neg]
    rintro ⟨hg, hd, -, -⟩
    rcases h1 with h | h
    · exact hg h
    · exact hd h
  · rw [if_neg h1]
    by_cases h2 : pt.isOutlier = true
    · rw [if_pos h2, if_neg]
      rintro ⟨-, -, ho, -⟩
      rw [ho] at h2
      exact Bool.false_ne_true h2
    · rw [if_neg h2]
      by_cases h3 : pt.gsd ≤ 0
      · rw [if_pos h3, if_neg]
        rintro ⟨-, -, -, hgsd⟩
        exact absurd h3 (not_le.mpr hgsd)
      · rw [if_neg h3, if_pos]
        refine ⟨fun h => h1 (Or.inl h), fun h => h1 (Or.inr h), ?_,
          lt_of_not_le h3⟩
        rw [Bool.not_eq_true] at h2
        exact h2

/-- C3 (amended): for reprojection, DEM, camera-position, rotation and
quaternion-norm residual blocks the entries appended to
weight_per_residual equal the scalar weight multiplied inside the cost
function; for a triangulation-inertia block the recorded value is
tri_weight while the residual is multiplied by tri_weight / gsd; and
for a roll/yaw block the recorded pair is the C++ boolean expression
(weight || 1.0), which always evaluates to 1.0, while the residual
components are multiplied by roll_weight and yaw_weight. -/
theorem weightRecording_amended
    (pix_wt xyz_weight xyz_threshold rotation_weight quat_norm_weight
     tri_weight tri_robust_threshold roll_weight yaw_weight
     camera_position_robust_threshold median_wt : ℚ)
    (count : ℕ) (shape : CamShape) (sqrtFn : ℕ → ℚ)
    (pt : TriPointInput) (dpt : DemPointInput) (shapes : List CamShape)
    (icam : ℕ) :
    (reprojRecordedWeights pix_wt = [pix_wt, pix_wt]
      ∧ ∀ obs pix : ℚ × ℚ,
          (lsPixelReprojErrResiduals pix_wt obs (some pix)).1
            = (pix_wt * (pix.1 - obs.1), pix_wt * (pix.2 - obs.2))
          ∧ (framePixelReprojErrResiduals pix_wt obs (some pix)).1
            = (pix_wt * (pix.1 - obs.1), pix_wt * (pix.2 - obs.2)))
    ∧
    ((demPointBlock xyz_weight xyz_threshold dpt).map TriBlock.recordedWeights
      = (demPointBlock xyz_weight xyz_threshold dpt).map
          (fun b => List.replicate NUM_XYZ_PARAMS b.weight))
    ∧
    ((addCamPositionConstraintCam sqrtFn camera_position_robust_threshold
        median_wt count shape).map TransBlock.recordedWeights
      = (addCamPositionConstraintCam sqrtFn camera_position_robust_threshold
          median_wt count shape).map
          (fun b => List.replicate NUM_XYZ_PARAMS b.weight))
    ∧
    (rotationRecordedWeightsCam rotation_weight shape
        = List.replicate
            (rotationRecordedWeightsCam rotation_weight shape).length
            rotation_weight
      ∧ ∀ init q p, weightedRotationError init rotation_weight q p
            = rotation_weight * (q p - init p))
    ∧
    ((addQuatNormLoop quat_norm_weight icam shapes).map
        QuatNormBlock.recordedWeights
      = (addQuatNormLoop quat_norm_weight icam shapes).map
          (fun b => [b.weight]))
    ∧
    ((triPointBlock tri_weight tri_robust_threshold pt).map
        (fun t => (t.weight, t.recordedWeights))
      = if pt.ptType ≠ ControlPointType.groundControlPoint
            ∧ pt.ptType ≠ ControlPointType.pointFromDem
            ∧ pt.isOutlier = false ∧ 0 < pt.gsd
        then some (tri_weight / pt.gsd, List.replicate NUM_XYZ_PARAMS tri_weight)
        else none)
    ∧
    (rollYawRecordedWeightPair roll_weight yaw_weight = (1, 1)) := by
  refine ⟨⟨rfl, fun obs pix => ⟨rfl, rfl⟩⟩, ?_, ?_, ⟨?_, fun init q p => rfl⟩,
    ?_, ?_, ?_⟩
  · unfold demPointBlock
    split
    · rfl
    · rfl
  · unfold addCamPositionConstraintCam
    split
    · rfl
    · cases shape
      · simp only [List.map_map]
        rfl
      · rfl
  · cases shape with
    | linescan numPos numQuat =>
      have h : ∀ l : List ℕ,
          l.flatMap (fun _ => List.replicate NUM_QUAT_PARAMS rotation_weight)
            = List.replicate (l.length * NUM_QUAT_PARAMS) rotation_weight := by
        intro l
        induction l with
        | nil => rfl
        | cons a t ih =>
          simp only [List.flatMap_cons, ih, List.length_cons]
          rw [← List.replicate_add]
          congr 1
          ring
      simp only [rotationRecordedWeightsCam]
      rw [h]
      simp
    | frame => simp [rotationRecordedWeightsCam]
  · induction shapes generalizing icam with
    | nil => rfl
    | cons s rest ih =>
      simp only [addQuatNormLoop, List.map_append]
      rw [ih (icam + 1)]
      congr 1
      cases s
      · simp only [quatNormBlocksCam, List.map_map]
        rfl
      · rfl
  · rw [triPointBlock_eq_ite]
    split
    · rfl
    · rfl
  · unfold rollYawRecordedWeightPair cppOrDouble
    rw [if_pos (Or.inr one_ne_zero), if_pos (Or.inr one_ne_zero)]

/-- C3 (counterexample): with tri_weight = 1 and a regular inlier point
of GSD 2, the triangulation-inertia residual is multiplied by 1/2 but
the recorded weights are 1; and with roll_weight = 2, yaw_weight = 3
the roll/yaw recorded pair is (1, 1), not (2, 3): the stored weights
are not the multiplied weights. -/
theorem weightRecording_cex :
    (triPointBlock 1 1
        ⟨ControlPointType.tiePoint, false, 2, fun _ => 0⟩).map
        (fun t => (t.weight, t.recordedWeights))
      = some (1/2, [1, 1, 1])
    ∧ ((1 : ℚ)/2 ≠ 1)
    ∧ rollYawRecordedWeightPair 2 3 = (1, 1)
    ∧ ((2 : ℚ) ≠ 1) ∧ ((3 : ℚ) ≠ 1) := by
  refine ⟨?_, by norm_num, ?_, by norm_num, by norm_num⟩
  · rw [triPointBlock_eq_ite, if_pos]
    · rfl
    · refine ⟨by decide, by decide, rfl, by norm_num⟩
  · unfold rollYawRecordedWeightPair cppOrDouble
    rw [if_pos (Or.inr one_ne_zero), if_pos (Or.inr one_ne_zero)]

/-! ## Theorems for anchor handling (addReprojCamErrs) -/

/-- C4: every anchor observation's triangulated point is marked
constant, so after the (spec-modelled) solve its coordinates are
unchanged, while a triangulated point touched by no anchor observation
takes whatever value the optimizer assigns. -/
theorem anchors_fixed_c4 (obsList : List ReprojObs)
    (update before : ℕ → Fin 3 → ℚ) :
    (∀ o ∈ obsList, o.isAnchor = true →
      solvedTriPoints (constantTriIndices obsList) update before o.triIndex
        = before o.triIndex)
    ∧ (∀ i, (∀ o ∈ obsList, o.isAnchor = true → o.triIndex ≠ i) →
      solvedTriPoints (constantTriIndices obsList) update before i
        = update i) := by
  constructor
  · intro o ho ha
    unfold solvedTriPoints
    rw [if_pos]
    unfold constantTriIndices reprojObsOrder reprojObsPass
    refine List.mem_map.mpr ⟨o, ?_, rfl⟩
    refine List.mem_filter.mpr ⟨?_, by simp [ha]⟩
    refine List.mem_append.mpr (Or.inr ?_)
    exact List.mem_filter.mpr ⟨ho, by simp [ha]⟩
  · intro i hno
    unfold solvedTriPoints
    rw [if_neg]
    intro hmem
    unfold constantTriIndices reprojObsOrder reprojObsPass at hmem
    obtain ⟨o, hof, hoi⟩ := List.mem_map.mp hmem
    obtain ⟨hoo, hanc⟩ := List.mem_filter.mp hof
    have ho : o ∈ obsList := by
      rcases List.mem_append.mp hoo with h | h
      · exact (List.mem_filter.mp h).1
      · exact (List.mem_filter.mp h).1
    exact hno o ho (by simpa using hanc) hoi

/-- C4 witness: with an anchor observation of point 5 and a free
observation of point 7, point 5 keeps its pre-solve value. -/
theorem anchors_fixed_c4_wit :
    solvedTriPoints
        (constantTriIndices [⟨5, 1, true⟩, ⟨7, 1, false⟩])
        (fun _ _ => 1) (fun _ _ => 0) 5
      = (fun _ _ => (0 : ℚ)) 5 :=
  (anchors_fixed_c4 [⟨5, 1, true⟩, ⟨7, 1, false⟩]
      (fun _ _ => 1) (fun _ _ => 0)).1
    ⟨5, 1, true⟩ (List.mem_cons_self _ _) rfl

/-! ## Theorems for the triangulation-inertia constraint -/

/-- C6: addTriConstraint adds, for every non-outlier point that is
neither a GCP nor a DEM point and has positive GSD, a weightedXyzError
block with weight tri_weight / gsd against the initial point value,
with a Cauchy loss at tri_robust_threshold, whose residual is
(tri_weight / gsd) * (tri_point - initial_tri_point); all other points
are silently skipped (the loop body yields none and never aborts). -/
theorem addTriConstraint_c6 (tri_weight tri_robust_threshold : ℚ)
    (pt : TriPointInput) :
    (triPointBlock tri_weight tri_robust_threshold pt
      = if pt.ptType ≠ ControlPointType.groundControlPoint
            ∧ pt.ptType ≠ ControlPointType.pointFromDem
            ∧ pt.isOutlier = false ∧ 0 < pt.gsd
        then some
          { weight := tri_weight / pt.gsd
            observation := pt.triPoint
            lossThreshold := tri_robust_threshold
            recordedWeights := List.replicate NUM_XYZ_PARAMS tri_weight }
        else none)
    ∧ (∀ x p, weightedXyzError pt.triPoint (tri_weight / pt.gsd) x p
          = (tri_weight / pt.gsd) * (x p - pt.triPoint p))
    ∧ (∀ pts : List TriPointInput,
        addTriConstraintBlocks tri_weight tri_robust_threshold pts
          = pts.filterMap (triPointBlock tri_weight tri_robust_threshold)) :=
  ⟨triPointBlock_eq_ite tri_weight tri_robust_threshold pt,
   fun x p => rfl, fun pts => rfl⟩

/-! ## Theorems for the camera-position constraint -/

/-- C5 (counterexample): for a linescan camera with 4 position samples,
count 1, median weight 1 and camera_position_robust_threshold 1, each
per-sample block carries Cauchy threshold sqrt(1) * 1 / sqrt(4) = 1/2,
not the claimed sqrt(N_obs) * threshold = 1. -/
theorem camPositionThreshold_cex :
    (addCamPositionConstraintCam natSqrtQ 1 1 1
        (CamShape.linescan 4 4)).map TransBlock.lossThreshold
      = [1/2, 1/2, 1/2, 1/2]
    ∧ natSqrtQ 1 * 1 = 1
    ∧ ((1 : ℚ)/2 ≠ 1) := by
  have h1 : natSqrtQ 1 = 1 := by
    unfold natSqrtQ
    rw [Nat.sqrt_one]
    norm_num
  have h4 : natSqrtQ 4 = 2 := by
    unfold natSqrtQ
    rw [show (4 : ℕ) = 2 * 2 from rfl, Nat.sqrt_eq]
    norm_num
  refine ⟨?_, by rw [h1]; norm_num, by norm_num⟩
  simp only [addCamPositionConstraintCam, if_neg (one_ne_zero), List.map_map]
  simp only [h1, h4, List.range_succ, List.range_zero, List.map_append,
    List.map_cons, List.map_nil, Function.comp]
  norm_num

/-- C5 (amended): for every camera with at least one recorded
observation, the camera-position constraint uses combined weight
sqrt(count) * median_wt and combined Cauchy threshold
sqrt(count) * camera_position_robust_threshold; for a linescan camera
both the weight and the threshold are further divided by sqrt(numPos)
and one weightedTranslationError residual w * (p - p_initial) is added
independently for every position sample, while for a frame camera a
single residual with the combined weight and threshold is added;
cameras with no recorded observation are skipped. -/
theorem camPosition_amended (sqrtFn : ℕ → ℚ)
    (camera_position_robust_threshold median_wt : ℚ) (count : ℕ)
    (hc : 0 < count) :
    (∀ numPos numQuat : ℕ,
      addCamPositionConstraintCam sqrtFn camera_position_robust_threshold
          median_wt count (CamShape.linescan numPos numQuat)
        = (List.range numPos).map (fun ip =>
            { posIndex := ip
              weight := sqrtFn count * median_wt / sqrtFn numPos
              lossThreshold :=
                sqrtFn count * camera_position_robust_threshold / sqrtFn numPos
              recordedWeights := List.replicate NUM_XYZ_PARAMS
                  (sqrtFn count * median_wt / sqrtFn numPos) }))
    ∧ (addCamPositionConstraintCam sqrtFn camera_position_robust_threshold
          median_wt count CamShape.frame
        = [{ posIndex := 0
             weight := sqrtFn count * median_wt
             lossThreshold := sqrtFn count * camera_position_robust_threshold
             recordedWeights := List.replicate NUM_XYZ_PARAMS
                 (sqrtFn count * median_wt) }])
    ∧ (∀ shape, addCamPositionConstraintCam sqrtFn
          camera_position_robust_threshold median_wt 0 shape = [])
    ∧ (∀ init w pos p, weightedTranslationError init w pos p
          = w * (pos p - init p)) := by
  have hne : count ≠ 0 := Nat.pos_iff_ne_zero.mp hc
  refine ⟨?_, ?_, ?_, fun init w pos p => rfl⟩
  · intro numPos numQuat
    unfold addCamPositionConstraintCam
    rw [if_neg hne]
  · unfold addCamPositionConstraintCam
    rw [if_neg hne]
  · intro shape
    unfold addCamPositionConstraintCam
    rw [if_pos rfl]

/-- C5 witness: concrete frame-camera run with count 1, median weight 1
and threshold 1. -/
theorem camPosition_amended_wit :
    0 < 1 ∧
    addCamPositionConstraintCam natSqrtQ 1 1 1 CamShape.frame
      = [{ posIndex := 0
           weight := natSqrtQ 1 * 1
           lossThreshold := natSqrtQ 1 * 1
           recordedWeights := List.replicate NUM_XYZ_PARAMS
               (natSqrtQ 1 * 1) }] :=
  ⟨Nat.one_pos, (camPosition_amended natSqrtQ 1 1 1 Nat.one_pos).2.1⟩

/-! ## Theorems for the linescan parameter-block layout -/

/-- Setting an index does not disturb other indices. -/
theorem getD_set_ne (l : List ℚ) (i j : ℕ) (a : ℚ) (h : i ≠ j) :
    (l.set i a).getD j 0 = l.getD j 0 := by
  simp [List.getD, List.getElem?_set_ne h]

/-- Setting an in-bounds index stores the value there. -/
theorem getD_set_self (l : List ℚ) (i : ℕ) (a : ℚ) (h : i < l.length) :
    (l.set i a).getD i 0 = a := by
  simp [List.getD, List.getElem?_set_self, h]

/-- The inner write loop preserves the array length. -/
theorem length_writeSlice (w : ℕ) (p : Params) (idx blk : ℕ)
    (dst : List ℚ) (c : ℕ) :
    (writeSlice w p idx blk dst c).length = dst.length := by
  induction c with
  | zero => rfl
  | succ n ih => simp [writeSlice, List.length_set, ih]

/-- The inner write loop leaves indices outside its slice unchanged. -/
theorem getD_writeSlice_outside (w : ℕ) (p : Params) (idx blk : ℕ)
    (dst : List ℚ) (c i : ℕ) (h : i < w * idx ∨ w * idx + c ≤ i) :
    (writeSlice w p idx blk dst c).getD i 0 = dst.getD i 0 := by
  induction c with
  | zero => rfl
  | succ n ih =>
    show ((writeSlice w p idx blk dst n).set (w * idx + n)
        (blockElem p blk n)).getD i 0 = _
    rw [getD_set_ne _ _ _ _ (by omega)]
    exact ih (by omega)

/-- The inner write loop stores coordinate c2 of parameter block blk at
offset w * idx + c2. -/
theorem getD_writeSlice_inside (w : ℕ) (p : Params) (idx blk : ℕ)
    (dst : List ℚ) (c c2 : ℕ) (h1 : c2 < c) (h2 : w * idx + c2 < dst.length) :
    (writeSlice w p idx blk dst c).getD (w * idx + c2) 0
      = blockElem p blk c2 := by
  induction c with
  | zero => omega
  | succ n ih =>
    show ((writeSlice w p idx blk dst n).set (w * idx + n)
        (blockElem p blk n)).getD (w * idx + c2) 0 = _
    by_cases hc : c2 = n
    · subst hc
      rw [getD_set_self]
      rw [length_writeSlice]
      exact h2
    · rw [getD_set_ne _ _ _ _ (by omega)]
      exact ih (by omega)

/-- The inner write loop reads only parameter block blk. -/
theorem writeSlice_congr (w : ℕ) (p1 p2 : Params) (idx blk : ℕ)
    (dst : List ℚ) (c : ℕ) (h : p1.getD blk [] = p2.getD blk []) :
    writeSlice w p1 idx blk dst c = writeSlice w p2 idx blk dst c := by
  induction c with
  | zero => rfl
  | succ n ih =>
    show (writeSlice w p1 idx blk dst n).set (w * idx + n)
        (blockElem p1 blk n) = _
    rw [ih]
    unfold blockElem
    rw [h]
    rfl

/-- The outer write loop preserves the array length. -/
theorem length_writeSlices (w : ℕ) (p : Params) (begIdx blkOff : ℕ)
    (dst : List ℚ) (n : ℕ) :
    (writeSlices w p begIdx blkOff dst n).length = dst.length := by
  induction n with
  | zero => rfl
  | succ m ih =>
    show (writeSlice w p (begIdx + m) (blkOff + m)
        (writeSlices w p begIdx blkOff dst m) w).length = _
    rw [length_writeSlice, ih]

/-- The outer write loop leaves indices outside the written sample
range unchanged. -/
theorem getD_writeSlices_outside (w : ℕ) (p : Params) (begIdx blkOff : ℕ)
    (dst : List ℚ) (n i : ℕ)
    (h : i < w * begIdx ∨ w * (begIdx + n) ≤ i) :
    (writeSlices w p begIdx blkOff dst n).getD i 0 = dst.getD i 0 := by
  induction n with
  | zero => rfl
  | succ m ih =>
    show (writeSlice w p (begIdx + m) (blkOff + m)
        (writeSlices w p begIdx blkOff dst m) w).getD i 0 = _
    have hmul : w * (begIdx + (m + 1)) = w * (begIdx + m) + w := by ring
    have hbm : w * begIdx ≤ w * (begIdx + m) :=
      Nat.mul_le_mul_left w (by omega)
    rw [getD_writeSlice_outside]
    · refine ih ?_
      rcases h with h | h
      · exact Or.inl h
      · refine Or.inr ?_
        have hbm2 : w * (begIdx + m) ≤ w * (begIdx + (m + 1)) :=
          Nat.mul_le_mul_left w (by omega)
        omega
    · rcases h with h | h
      · exact Or.inl (lt_of_lt_of_le h hbm)
      · refine Or.inr ?_
        omega

/-- The outer write loop stores coordinate c of parameter block
blkOff + j at array offset w * (begIdx + j) + c. -/
theorem getD_writeSlices_inside (w : ℕ) (p : Params) (begIdx blkOff : ℕ)
    (dst : List ℚ) (n j c : ℕ) (hj : j < n) (hc : c < w)
    (hlen : w * (begIdx + j) + c < dst.length) :
    (writeSlices w p begIdx blkOff dst n).getD (w * (begIdx + j) + c) 0
      = blockElem p (blkOff + j) c := by
  induction n with
  | zero => omega
  | succ m ih =>
    show (writeSlice w p (begIdx + m) (blkOff + m)
        (writeSlices w p begIdx blkOff dst m) w).getD
        (w * (begIdx + j) + c) 0 = _
    by_cases hjm : j = m
    · subst hjm
      refine getD_writeSlice_inside w p (begIdx + j) (blkOff + j) _ w c hc ?_
      rw [length_writeSlices]
      exact hlen
    · rw [getD_writeSlice_outside]
      · exact ih (by omega)
      · refine Or.inl ?_
        have h1 : w * (begIdx + j) + c < w * (begIdx + j) + w := by omega
        have h2 : w * (begIdx + j) + w = w * (begIdx + j + 1) := by ring
        have h3 : w * (begIdx + j + 1) ≤ w * (begIdx + m) :=
          Nat.mul_le_mul_left w (by omega)
        exact lt_of_lt_of_le (h2 ▸ h1) h3

/-- The outer write loop reads only parameter blocks
blkOff, ..., blkOff + n - 1. -/
theorem writeSlices_congr (w : ℕ) (p1 p2 : Params) (begIdx blkOff : ℕ)
    (dst : List ℚ) (n : ℕ)
    (h : ∀ j, j < blkOff + n → p1.getD j [] = p2.getD j []) :
    writeSlices w p1 begIdx blkOff dst n
      = writeSlices w p2 begIdx blkOff dst n := by
  induction n with
  | zero => rfl
  | succ m ih =>
    show writeSlice w p1 (begIdx + m) (blkOff + m)
        (writeSlices w p1 begIdx blkOff dst m) w = _
    rw [ih (fun j hj => h j (by omega))]
    exact writeSlice_congr w p1 p2 _ _ _ w (h (blkOff + m) (by omega))

/-- C10: the parameter-block layout declared by LsPixelReprojErr::Create
(one block of size 4 per quaternion index in the range, then one block
of size 3 per position index in the range, then one block of size 3,
a total of (endQuat - begQuat) + (endPos - begPos) + 1 blocks) exactly
matches the indices read by updateLsModelTriPt: quaternion sample
begQuat + j is filled from block j, position sample begPos + j from
block (endQuat - begQuat) + j, the triangulated point from the final
block, the function depends on no parameter block past that, and
(given in-range index bounds) it writes only in-bounds entries of the
model copy, leaving all other entries and the array lengths unchanged. -/
theorem updateLsModelTriPt_c10 (parameters : Params)
    (begQuatIndex endQuatIndex begPosIndex endPosIndex numQuat numPos : ℕ)
    (cam : LsModelArrays)
    (hq1 : begQuatIndex < endQuatIndex) (hq2 : endQuatIndex ≤ numQuat)
    (hp1 : begPosIndex < endPosIndex) (hp2 : endPosIndex ≤ numPos)
    (hlq : cam.m_quaternions.length = NUM_QUAT_PARAMS * numQuat)
    (hlp : cam.m_positions.length = NUM_XYZ_PARAMS * numPos) :
    (lsReprojBlockSizes begQuatIndex endQuatIndex begPosIndex endPosIndex
        = List.replicate (endQuatIndex - begQuatIndex) NUM_QUAT_PARAMS ++
          List.replicate (endPosIndex - begPosIndex) NUM_XYZ_PARAMS ++
          [NUM_XYZ_PARAMS]
      ∧ (lsReprojBlockSizes begQuatIndex endQuatIndex begPosIndex
            endPosIndex).length
          = (endQuatIndex - begQuatIndex) + (endPosIndex - begPosIndex) + 1)
    ∧ ((updateLsModelTriPt parameters begQuatIndex endQuatIndex begPosIndex
          endPosIndex cam).2
        = (blockElem parameters
             ((endQuatIndex - begQuatIndex) + (endPosIndex - begPosIndex)) 0,
           blockElem parameters
             ((endQuatIndex - begQuatIndex) + (endPosIndex - begPosIndex)) 1,
           blockElem parameters
             ((endQuatIndex - begQuatIndex) + (endPosIndex - begPosIndex)) 2))
    ∧ ((updateLsModelTriPt parameters begQuatIndex endQuatIndex begPosIndex
          endPosIndex cam).1.m_quaternions.length = cam.m_quaternions.length
      ∧ (updateLsModelTriPt parameters begQuatIndex endQuatIndex begPosIndex
          endPosIndex cam).1.m_positions.length = cam.m_positions.length)
    ∧ (∀ j c, j < endQuatIndex - begQuatIndex → c < NUM_QUAT_PARAMS →
        (updateLsModelTriPt parameters begQuatIndex endQuatIndex begPosIndex
            endPosIndex cam).1.m_quaternions.getD
            (NUM_QUAT_PARAMS * (begQuatIndex + j) + c) 0
          = blockElem parameters j c)
    ∧ (∀ i, i < NUM_QUAT_PARAMS * begQuatIndex
          ∨ NUM_QUAT_PARAMS * endQuatIndex ≤ i →
        (updateLsModelTriPt parameters begQuatIndex endQuatIndex begPosIndex
            endPosIndex cam).1.m_quaternions.getD i 0
          = cam.m_quaternions.getD i 0)
    ∧ (∀ j c, j < endPosIndex - begPosIndex → c < NUM_XYZ_PARAMS →
        (updateLsModelTriPt parameters begQuatIndex endQuatIndex begPosIndex
            endPosIndex cam).1.m_positions.getD
            (NUM_XYZ_PARAMS * (begPosIndex + j) + c) 0
          = blockElem parameters ((endQuatIndex - begQuatIndex) + j) c)
    ∧ (∀ i, i < NUM_XYZ_PARAMS * begPosIndex
          ∨ NUM_XYZ_PARAMS * endPosIndex ≤ i →
        (updateLsModelTriPt parameters begQuatIndex endQuatIndex begPosIndex
            endPosIndex cam).1.m_positions.getD i 0
          = cam.m_positions.getD i 0)
    ∧ (∀ parameters2 : Params,
        (∀ j, j < (endQuatIndex - begQuatIndex)
              + (endPosIndex - begPosIndex) + 1 →
          parameters.getD j [] = parameters2.getD j []) →
        updateLsModelTriPt parameters begQuatIndex endQuatIndex begPosIndex
            endPosIndex cam
          = updateLsModelTriPt parameters2 begQuatIndex endQuatIndex
              begPosIndex endPosIndex cam) := by
  refine ⟨⟨rfl, ?_⟩, rfl, ⟨?_, ?_⟩, ?_, ?_, ?_, ?_, ?_⟩
  · simp [lsReprojBlockSizes]
    omega
  · exact length_writeSlices _ _ _ _ _ _
  · exact length_writeSlices _ _ _ _ _ _
  · intro j c hj hc
    have h := getD_writeSlices_inside NUM_QUAT_PARAMS parameters
      begQuatIndex 0 cam.m_quaternions (endQuatIndex - begQuatIndex) j c hj hc
      (by
        rw [hlq]
        have hc4 : c < 4 := by simpa [NUM_QUAT_PARAMS] using hc
        simp only [NUM_QUAT_PARAMS]
        omega)
    simpa using h
  · intro i hi
    refine getD_writeSlices_outside NUM_QUAT_PARAMS parameters
      begQuatIndex 0 cam.m_quaternions (endQuatIndex - begQuatIndex) i ?_
    rcases hi with hi | hi
    · exact Or.inl hi
    · refine Or.inr ?_
      have harith : begQuatIndex + (endQuatIndex - begQuatIndex)
          = endQuatIndex := by omega
      rw [harith]
      exact hi
  · intro j c hj hc
    exact getD_writeSlices_inside NUM_XYZ_PARAMS parameters
      begPosIndex (endQuatIndex - begQuatIndex) cam.m_positions
      (endPosIndex - begPosIndex) j c hj hc
      (by
        rw [hlp]
        have hc3 : c < 3 := by simpa [NUM_XYZ_PARAMS] using hc
        simp only [NUM_XYZ_PARAMS]
        omega)
  · intro i hi
    refine getD_writeSlices_outside NUM_XYZ_PARAMS parameters
      begPosIndex (endQuatIndex - begQuatIndex) cam.m_positions
      (endPosIndex - begPosIndex) i ?_
    rcases hi with hi | hi
    · exact Or.inl hi
    · refine Or.inr ?_
      have harith : begPosIndex + (endPosIndex - begPosIndex)
          = endPosIndex := by omega
      rw [harith]
      exact hi
  · intro parameters2 hagree
    have hq := writeSlices_congr NUM_QUAT_PARAMS parameters parameters2
      begQuatIndex 0 cam.m_quaternions (endQuatIndex - begQuatIndex)
      (fun j hj => hagree j (by omega))
    have hp := writeSlices_congr NUM_XYZ_PARAMS parameters parameters2
      begPosIndex (endQuatIndex - begQuatIndex) cam.m_positions
      (endPosIndex - begPosIndex) (fun j hj => hagree j (by omega))
    have ht := hagree
      ((endQuatIndex - begQuatIndex) + (endPosIndex - begPosIndex))
      (by omega)
    simp only [updateLsModelTriPt, blockElem]
    rw [hq, hp, ht]

/-- C10 witness: a concrete run with one quaternion block, one position
block and the triangulated-point block; the triangulated point is read
from the final block. -/
theorem updateLsModelTriPt_c10_wit :
    (0 < 1 ∧ ([(0 : ℚ), 0, 0, 0] : List ℚ).length = NUM_QUAT_PARAMS * 1)
    ∧ (updateLsModelTriPt [[1, 2, 3, 4], [5, 6, 7], [8, 9, 10]] 0 1 0 1
        ⟨[0, 0, 0, 0], [0, 0, 0]⟩).2
      = (blockElem [[1, 2, 3, 4], [5, 6, 7], [8, 9, 10]] (1 - 0 + (1 - 0)) 0,
         blockElem [[1, 2, 3, 4], [5, 6, 7], [8, 9, 10]] (1 - 0 + (1 - 0)) 1,
         blockElem [[1, 2, 3, 4], [5, 6, 7], [8, 9, 10]] (1 - 0 + (1 - 0)) 2) :=
  ⟨⟨Nat.one_pos, by decide⟩,
   (updateLsModelTriPt_c10 [[1, 2, 3, 4], [5, 6, 7], [8, 9, 10]]
      0 1 0 1 1 1 ⟨[0, 0, 0, 0], [0, 0, 0]⟩
      (by decide) (by decide) (by decide) (by decide)
      (by decide) (by decide)).2.1⟩
